import Mathlib

set_option maxHeartbeats 1000000

/-!
Shallow embedding of
`airbyte-integrations/connectors/source-greenhouse/source_greenhouse/client.py`
(the Greenhouse source connector: the `paginator` traversal engine and the
`Client` entity catalog, access prober and health check), together with proofs
about its pagination, nested-relation traversal and probing behaviour.

The remote Harvest API and its `grnhse` accessor objects are external
collaborators of this file's code; they are modelled from the spec's Resource
Accessor contract (spec sections 3 and 4.1): an accessor is bound to one remote
collection, `get` returns the first page, `get_next` the following ones while
`records_remaining` is true, and attribute lookup on a record-bound accessor
resolves a nested relation name to a child accessor.
-/

/-- A record returned by the remote API: its `id` field (used to bind nested
sub-requests) plus a tag standing for the rest of the payload, enough to tell
records of different collections apart. -/
structure Record where
  id : Nat
  tag : String
  deriving DecidableEq, Repr

/-- A value of the keyword-parameter mapping handed to `Client.list` and
`paginator`: numbers, strings, or the internal `nested_names` list of relation
names. -/
inductive PVal where
  | nat : Nat → PVal
  | str : String → PVal
  | names : List String → PVal
  deriving DecidableEq, Repr

/-- The `**params` keyword mapping: an insertion-ordered dictionary with
string keys, as in Python. -/
abbrev Params := List (String × PVal)

/-- Dictionary lookup, `params[k]` / `params.get(k)`. -/
def pget (p : Params) (k : String) : Option PVal :=
  match p with
  | [] => none
  | (k0, v) :: rest => if k0 = k then some v else pget rest k

/-- Python `k in params`. -/
def pcontains (p : Params) (k : String) : Bool :=
  (pget p k).isSome

/-- Key removal, the destructive part of `params.pop(k)`. -/
def premove (p : Params) (k : String) : Params :=
  match p with
  | [] => []
  | (k0, v) :: rest => if k0 = k then premove rest k else (k0, v) :: premove rest k

/-- Python `params.pop(k, None)`: the removed value (if any) and the remaining
mapping. -/
def ppop (p : Params) (k : String) : Option PVal × Params :=
  (pget p k, premove p k)

/-- Python `params[k] = v`: overwrite in place, or append a new key. -/
def pset (p : Params) (k : String) (v : PVal) : Params :=
  match p with
  | [] => [(k, v)]
  | (k0, v0) :: rest => if k0 = k then (k, v) :: rest else (k0, v0) :: pset rest k v

/-- Modelled from the spec: a Resource Accessor (spec section 3) bound to one
remote collection. `pages` are the successive batches its paginated fetch
returns: `get` yields the first page, `get_next` the following ones, and
`records_remaining` is true exactly while further pages remain. `related`
gives, per nested relation name and parent record `id`, the child accessor
that `getattr(request(..., object_id=row["id"]), relation)` produces; the
underlying HTTP transport is an external collaborator and is not modelled. -/
inductive Accessor where
  | mk : List (List Record) → List (String × List (Nat × Accessor)) → Accessor

/-- The pages of an accessor's remote collection, in fetch order. -/
def Accessor.pages : Accessor → List (List Record)
  | .mk p _ => p

/-- The nested-relation table of an accessor. -/
def Accessor.related : Accessor → List (String × List (Nat × Accessor))
  | .mk _ r => r

/-- Look a relation name up in a nested-relation table. -/
def findRel : List (String × List (Nat × Accessor)) → String → Option (List (Nat × Accessor))
  | [], _ => none
  | (n, tbl) :: rest, name => if n = name then some tbl else findRel rest name

/-- Look a parent record id up in one relation's child table. -/
def findChild : List (Nat × Accessor) → Nat → Option Accessor
  | [], _ => none
  | (i, c) :: rest, oid => if i = oid then some c else findChild rest oid

/-- Resolve `getattr(request(..., object_id=oid), name)`: the child accessor
for relation `name` of the parent record with id `oid`. The construction
keyword parameters do not change which child accessor a relation name and
parent id resolve to, so they are not arguments here. -/
def getRelated (a : Accessor) (name : String) (oid : Nat) : Option Accessor :=
  match findRel a.related name with
  | none => none
  | some tbl => findChild tbl oid

theorem sizeOf_findChild : ∀ (tbl : List (Nat × Accessor)) (oid : Nat) (c : Accessor),
    findChild tbl oid = some c → sizeOf c < sizeOf tbl := by
  intro tbl
  induction tbl with
  | nil => intro oid c h; simp [findChild] at h
  | cons hd rest ih =>
    intro oid c h
    obtain ⟨i, c0⟩ := hd
    simp only [findChild] at h
    split at h
    · cases h
      simp only [List.cons.sizeOf_spec, Prod.mk.sizeOf_spec]
      omega
    · have := ih oid c h
      simp only [List.cons.sizeOf_spec, Prod.mk.sizeOf_spec]
      omega

theorem sizeOf_findRel : ∀ (l : List (String × List (Nat × Accessor))) (name : String)
    (tbl : List (Nat × Accessor)), findRel l name = some tbl → sizeOf tbl < sizeOf l := by
  intro l
  induction l with
  | nil => intro name tbl h; simp [findRel] at h
  | cons hd rest ih =>
    intro name tbl h
    obtain ⟨n, tbl0⟩ := hd
    simp only [findRel] at h
    split at h
    · cases h
      simp only [List.cons.sizeOf_spec, Prod.mk.sizeOf_spec]
      omega
    · have := ih name tbl h
      simp only [List.cons.sizeOf_spec, Prod.mk.sizeOf_spec]
      omega

theorem sizeOf_getRelated {a : Accessor} {name : String} {oid : Nat} {c : Accessor}
    (h : getRelated a name oid = some c) : sizeOf c < sizeOf a := by
  unfold getRelated at h
  cases hr : findRel a.related name with
  | none => rw [hr] at h; cases h
  | some tbl =>
    rw [hr] at h
    have h1 := sizeOf_findChild tbl oid c h
    have h2 := sizeOf_findRel a.related name tbl hr
    cases a with
    | mk p r =>
      simp only [Accessor.related] at h2
      simp only [Accessor.mk.sizeOf_spec]
      omega

/-- One page-fetch event of the traversal engine: an initial `get` with the
keyword parameters it was handed, or a `get_next` continuation fetch. -/
inductive Ev where
  | get : Params → Ev
  | getNext : Ev
  deriving DecidableEq, Repr

/-- `request.get(**params)`: the first page of the accessor's collection
(empty when the collection has no pages at all). -/
def firstPage (a : Accessor) : List Record :=
  a.pages.headD []

/-- The pages still to fetch after the initial `get`; `records_remaining` is
true exactly while this list is nonempty. -/
def restPages (a : Accessor) : List (List Record) :=
  a.pages.drop 1

/-- The trailing `while request.records_remaining: rows = request.get_next();
yield from rows` loop of `paginator`: one `get_next` fetch per remaining page,
stopping as soon as no pages remain. -/
def drainRest : List (List Record) → List Record × List Ev
  | [] => ([], [])
  | b :: rest =>
    let r := drainRest rest
    (b ++ r.1, Ev.getNext :: r.2)

mutual

/-- `paginator(request, **params)` from client.py, lines 37-50, with the page
fetches it performs recorded as a trace. Returns the records the generator
yields — or, as its exception name, the Python error the run raises — together
with the trace of fetch events issued before returning or raising. On the
`len(nested_names) > 1` path the source reads `params["nested_names"]` right
after `params.pop("nested_names", None)` removed that key, which raises
`KeyError`. -/
def paginator (req : Accessor) (params : Params) : Except String (List Record) × List Ev :=
  let rows := firstPage req
  let tl := drainRest (restPages req)
  if pcontains params "nested_names" then
    match ppop params "nested_names" with
    | (some (PVal.names ns), params') =>
      if ns.length > 1 then
        (Except.error "KeyError: nested_names", [Ev.get params])
      else
        match ns with
        | [] => (Except.error "IndexError: list index out of range", [Ev.get params])
        | n :: _ =>
          match rowLoop req params' n rows with
          | (Except.error e, evs) => (Except.error e, Ev.get params :: evs)
          | (Except.ok rs, evs) => (Except.ok (rs ++ tl.1), Ev.get params :: (evs ++ tl.2))
    | (_, _) => (Except.error "TypeError", [Ev.get params])
  else
    (Except.ok (rows ++ tl.1), Ev.get params :: tl.2)
termination_by (sizeOf req, 1, 0)

/-- The `for row in rows: yield from paginator(getattr(request(**params,
object_id=row["id"]), nested_names[0]))` loop of `paginator`. `cparams` are
the construction parameters in scope at the call (they do not change which
child accessor is resolved); the recursive `paginator` call passes no keyword
parameters, exactly as in the source. A parent record whose relation table has
no entry is an `AttributeError` resolution fault. -/
def rowLoop (req : Accessor) (cparams : Params) (n : String) (rows : List Record) :
    Except String (List Record) × List Ev :=
  match rows with
  | [] => (Except.ok [], [])
  | row :: rest =>
    match h : getRelated req n row.id with
    | none => (Except.error "AttributeError", [])
    | some c =>
      match paginator c [] with
      | (Except.error e, evs) => (Except.error e, evs)
      | (Except.ok rs, evs) =>
        match rowLoop req cparams n rest with
        | (Except.error e, evs2) => (Except.error e, evs ++ evs2)
        | (Except.ok rs2, evs2) => (Except.ok (rs ++ rs2), evs ++ evs2)
termination_by (sizeOf req, 0, rows.length)
decreasing_by
  all_goals first
    | (have hlt := sizeOf_getRelated h
       decreasing_tactic)
    | decreasing_tactic

end

/-- One step of Python `name.split(".")` on the character list of the name. -/
def splitDot (s : List Char) : List (List Char) :=
  match s with
  | [] => [[]]
  | c :: rest =>
    let r := splitDot rest
    if c = '.' then [] :: r
    else (c :: r.headD []) :: r.tail

/-- Python `name.split(".")`: the dot-separated segments of an entity name. -/
def splitName (s : String) : List String :=
  (splitDot s.toList).map fun l => String.mk l

/-- Modelled from the spec: the client object (the `Harvest` session held in
`self._client`), whose attribute lookup resolves a root resource name to its
Resource Accessor (spec sections 2 and 4.1). A name the client does not define
is a resolution fault, Python `AttributeError` (spec section 7). -/
structure Client where
  attr : String → Option Accessor

/-- `DEFAULT_ITEMS_PER_PAGE` from client.py. -/
def DEFAULT_ITEMS_PER_PAGE : Nat := 100

/-- `Client.list` from client.py, lines 112-118: split the entity name, force
`per_page` to `DEFAULT_ITEMS_PER_PAGE`, attach the nested relation names when
the name is compound, and drive `paginator` on the root segment's accessor. -/
def Client.list (c : Client) (name : String) (kwargs : Params) :
    Except String (List Record) × List Ev :=
  let name_parts := splitName name
  let nested_names := name_parts.drop 1
  let kwargs1 := pset kwargs "per_page" (PVal.nat DEFAULT_ITEMS_PER_PAGE)
  let kwargs2 :=
    if nested_names.isEmpty then kwargs1
    else pset kwargs1 "nested_names" (PVal.names nested_names)
  match c.attr (name_parts.headD "") with
  | none => (Except.error "AttributeError", [])
  | some root => paginator root kwargs2

theorem drainRest_spec (l : List (List Record)) :
    drainRest l = (l.flatten, List.replicate l.length Ev.getNext) := by
  induction l with
  | nil => rfl
  | cons b rest ih => simp [drainRest, ih, List.replicate]

theorem pget_pset_self (p : Params) (k : String) (v : PVal) :
    pget (pset p k v) k = some v := by
  induction p with
  | nil => simp [pset, pget]
  | cons hd rest ih =>
    obtain ⟨k0, v0⟩ := hd
    by_cases hk : k0 = k
    · simp [pset, hk, pget]
    · simp [pset, hk, pget, ih]

theorem pget_pset_ne (p : Params) (k k' : String) (v : PVal) (h : k' ≠ k) :
    pget (pset p k v) k' = pget p k' := by
  have hne : k ≠ k' := Ne.symm h
  induction p with
  | nil => simp [pset, pget, hne]
  | cons hd rest ih =>
    obtain ⟨k0, v0⟩ := hd
    by_cases hk : k0 = k
    · subst hk
      simp [pset, pget, hne]
    · simp only [pset, if_neg hk, pget]
      by_cases hk' : k0 = k'
      · simp [hk']
      · simp [hk', ih]

theorem pcontains_pset_ne (p : Params) (k k' : String) (v : PVal) (h : k' ≠ k) :
    pcontains (pset p k v) k' = pcontains p k' := by
  simp [pcontains, pget_pset_ne p k k' v h]

/-- Closed form of `paginator` when no `nested_names` key is present (in
particular for every recursive call, which passes no parameters): one initial
`get`, then one `get_next` per remaining page, yielding the concatenation of
all pages. -/
theorem paginator_no_nested (a : Accessor) (ps : Params)
    (h : pcontains ps "nested_names" = false) :
    paginator a ps =
      (Except.ok a.pages.flatten,
       Ev.get ps :: List.replicate (a.pages.length - 1) Ev.getNext) := by
  rw [paginator.eq_def]
  simp only [h, Bool.false_eq_true, if_false, drainRest_spec]
  cases hp : a.pages with
  | nil => simp [firstPage, restPages, hp]
  | cons b rest => simp [firstPage, restPages, hp]

/-- Closed form of the `for row in rows` loop when every parent record's child
accessor resolves: the children of each parent, in parent order, each child
traversed with empty parameters (one `get` with no parameters, then
`get_next` fetches). -/
theorem rowLoop_spec (req : Accessor) (cp : Params) (n : String) (rows : List Record)
    (ca : Record → Accessor)
    (h : ∀ r ∈ rows, getRelated req n r.id = some (ca r)) :
    rowLoop req cp n rows =
      (Except.ok ((rows.map fun r => (ca r).pages.flatten).flatten),
       (rows.map fun r =>
         Ev.get [] :: List.replicate ((ca r).pages.length - 1) Ev.getNext).flatten) := by
  induction rows with
  | nil => rw [rowLoop.eq_def]; rfl
  | cons row rest ih =>
    have hrow := h row (List.mem_cons_self row rest)
    have hrest : ∀ r ∈ rest, getRelated req n r.id = some (ca r) :=
      fun r hr => h r (List.mem_cons_of_mem row hr)
    rw [rowLoop.eq_def]
    dsimp only
    split
    · next heq => rw [hrow] at heq; cases heq
    · next c heq =>
      rw [hrow] at heq
      injection heq with heq2
      subst heq2
      rw [paginator_no_nested (ca row) [] rfl]
      simp only [ih hrest, List.map_cons, List.flatten_cons, List.cons_append]

/-- Closed form of `paginator` for a one-relation nested chain whose child
accessors all resolve: the first parent page is recursed into, children in
parent order; every later parent page is yielded verbatim by the trailing
`get_next` loop without recursion. -/
theorem paginator_nested_one (a : Accessor) (ps : Params) (n : String) (ca : Record → Accessor)
    (hps : pget ps "nested_names" = some (PVal.names [n]))
    (hrel : ∀ r ∈ firstPage a, getRelated a n r.id = some (ca r)) :
    paginator a ps =
      (Except.ok (((firstPage a).map fun r => (ca r).pages.flatten).flatten
          ++ (restPages a).flatten),
       Ev.get ps ::
         ((((firstPage a).map fun r =>
             Ev.get [] :: List.replicate ((ca r).pages.length - 1) Ev.getNext).flatten)
           ++ List.replicate (restPages a).length Ev.getNext)) := by
  have hc : pcontains ps "nested_names" = true := by simp [pcontains, hps]
  rw [paginator.eq_def]
  simp only [hc, if_true, ppop, hps, drainRest_spec]
  rw [rowLoop_spec a (premove ps "nested_names") n (firstPage a) ca hrel]
  simp

/-- The `KeyError` path: with a nested chain of two or more relation names,
`paginator` raises right after the initial fetch, yielding nothing. -/
theorem paginator_deep_keyerror (a : Accessor) (ps : Params) (ns : List String)
    (hps : pget ps "nested_names" = some (PVal.names ns)) (hlen : 1 < ns.length) :
    paginator a ps = (Except.error "KeyError: nested_names", [Ev.get ps]) := by
  have hc : pcontains ps "nested_names" = true := by simp [pcontains, hps]
  rw [paginator.eq_def]
  simp only [hc, if_true, ppop, hps]
  simp only [if_pos hlen]

/-- Every `paginator` run's trace opens with the initial `get` carrying
exactly the parameters the engine was handed, whether the run then returns or
raises. -/
theorem paginator_trace_head (a : Accessor) (ps : Params) :
    (paginator a ps).2.head? = some (Ev.get ps) := by
  rw [paginator.eq_def]
  dsimp only
  repeat' split
  all_goals rfl

/-- Every initial `get` issued by the row loop is a nested-level fetch with no
parameters at all, exactly as the source's recursive call passes none. -/
theorem rowLoop_gets (req : Accessor) (cp : Params) (n : String) (rows : List Record) :
    ∀ p, Ev.get p ∈ (rowLoop req cp n rows).2 → p = [] := by
  induction rows with
  | nil =>
    intro p hp
    rw [rowLoop.eq_def] at hp
    simp at hp
  | cons row rest ih =>
    intro p hp
    rw [rowLoop.eq_def] at hp
    dsimp only at hp
    split at hp
    · simp at hp
    · next c heq =>
      rw [paginator_no_nested c [] rfl] at hp
      dsimp only at hp
      split at hp
      · next e evs2 heq2 =>
        simp only [List.mem_append, List.mem_cons, List.mem_replicate] at hp
        rcases hp with (h1 | h1) | h1
        · injection h1 with h2
        · exact absurd h1.2 (by simp)
        · exact ih p (by rw [heq2]; exact h1)
      · next rs2 evs2 heq2 =>
        simp only [List.mem_append, List.mem_cons, List.mem_replicate] at hp
        rcases hp with (h1 | h1) | h1
        · injection h1 with h2
        · exact absurd h1.2 (by simp)
        · exact ih p (by rw [heq2]; exact h1)

/-- Every initial `get` in a `paginator` run carries either the engine's own
parameters (the root-level fetch) or no parameters at all (a nested-level
fetch). -/
theorem paginator_gets (a : Accessor) (ps : Params) :
    ∀ p, Ev.get p ∈ (paginator a ps).2 → p = ps ∨ p = [] := by
  intro p hp
  rw [paginator.eq_def] at hp
  dsimp only at hp
  split at hp
  · split at hp
    · split at hp
      · simp at hp
        left; exact hp
      · split at hp
        · simp at hp
          left; exact hp
        · split at hp
          · next e evs heq =>
            simp only [List.mem_cons] at hp
            rcases hp with h1 | h1
            · injection h1 with h2; left; exact h2
            · right; exact rowLoop_gets _ _ _ _ p (by rw [heq]; exact h1)
          · next rs evs heq =>
            simp only [drainRest_spec, List.mem_cons, List.mem_append,
              List.mem_replicate] at hp
            rcases hp with h1 | h1 | h1
            · injection h1 with h2; left; exact h2
            · right; exact rowLoop_gets _ _ _ _ p (by rw [heq]; exact h1)
            · exact absurd h1.2 (by simp)
    · simp at hp
      left; exact hp
  · simp only [drainRest_spec, List.mem_cons, List.mem_replicate] at hp
    rcases hp with h1 | h1
    · injection h1 with h2; left; exact h2
    · exact absurd h1.2 (by simp)

/-- Outcome of one probe read `getattr(self._client, entity).get()`: success,
an `HTTPError` carrying `str(error)`, or any other Python exception (for
example the `AttributeError` resolution fault) carrying its message. -/
inductive ProbeOutcome where
  | ok : ProbeOutcome
  | httpError : String → ProbeOutcome
  | exn : String → ProbeOutcome
  deriving DecidableEq, Repr

/-- An exception escaping `get_accessible_endpoints`: a re-raised `HTTPError`
or any other exception. -/
inductive PyRaise where
  | http : String → PyRaise
  | other : String → PyRaise
  deriving DecidableEq, Repr

/-- The recognized permission-denied pattern matched against `str(error)` in
`get_accessible_endpoints`. -/
def PERMISSION_MESSAGE : String :=
  "This API Key does not have permission for this endpoint"

/-- Substring occurrence on character lists. -/
def hasInfix (pat : List Char) : List Char → Bool
  | [] => pat.isEmpty
  | c :: cs => pat.isPrefixOf (c :: cs) || hasInfix pat cs

/-- Python `pat in s` on strings: substring containment. -/
def strIn (pat s : String) : Bool :=
  hasInfix pat.toList s.toList

/-- `Client.ENTITIES` from client.py: the fixed, ordered entity catalog. -/
def ENTITIES : List String :=
  ["applications",
   "candidates",
   "close_reasons",
   "degrees",
   "departments",
   "job_posts",
   "jobs",
   "offers",
   "scorecards",
   "users",
   "custom_fields",
   "demographics_question_sets",
   "demographics_questions",
   "demographics_answer_options",
   "demographics_answers",
   "applications.demographics_answers",
   "demographics_question_sets.questions",
   "demographics_answers.answer_options",
   "interviews",
   "applications.interviews",
   "sources",
   "rejection_reasons",
   "jobs.openings",
   "job_stages",
   "jobs.stages"]

/-- `Client.get_accessible_endpoints` from client.py, lines 123-136,
parameterized by the outcome of each probe read
`getattr(self._client, entity).get()`, which the remote environment
determines. Returns the Python result — the accessible entity names in
catalog order, or the exception the loop lets escape (an `HTTPError` whose
message lacks the permission pattern is re-raised; any non-`HTTPError`
exception is not caught at all) — paired with the entities actually probed,
in order. -/
def get_accessible_endpoints (probe : String → ProbeOutcome) :
    List String → Except PyRaise (List String) × List String
  | [] => (Except.ok [], [])
  | e :: rest =>
    match probe e with
    | ProbeOutcome.ok =>
      let r := get_accessible_endpoints probe rest
      (r.1.map fun l => e :: l, e :: r.2)
    | ProbeOutcome.httpError msg =>
      if strIn PERMISSION_MESSAGE msg then
        let r := get_accessible_endpoints probe rest
        (r.1, e :: r.2)
      else
        (Except.error (PyRaise.http msg), [e])
    | ProbeOutcome.exn msg => (Except.error (PyRaise.other msg), [e])

/-- The fixed message `health_check` returns when no endpoint is accessible. -/
def NO_PERMISSION_MESSAGE : String :=
  "Your API Key does not have permission for any existing endpoints. Please grant read permissions for required streams/endpoints"

/-- `Client.health_check` from client.py, lines 138-151: wraps
`get_accessible_endpoints` in `try/except HTTPError`; an empty accessible set
gives `(False, fixed message)`, a caught `HTTPError` gives
`(False, str(error))`, and any non-`HTTPError` exception propagates. -/
def health_check (probe : String → ProbeOutcome) (entities : List String) :
    Except PyRaise (Bool × Option String) :=
  match (get_accessible_endpoints probe entities).1 with
  | Except.ok l =>
    if l.isEmpty then Except.ok (false, some NO_PERMISSION_MESSAGE)
    else Except.ok (true, none)
  | Except.error (PyRaise.http msg) => Except.ok (false, some msg)
  | Except.error (PyRaise.other msg) => Except.error (PyRaise.other msg)

/-- The probe read `getattr(self._client, entity).get()` of line 129 in
isolation: attribute lookup of the full entity string on the client, then a
first-page read on the accessor found; `read` supplies the remote outcome of
such a read. The second component records the accessors actually read. -/
def probeStep (c : Client) (read : Accessor → ProbeOutcome) (entity : String) :
    ProbeOutcome × List Accessor :=
  match c.attr entity with
  | none => (ProbeOutcome.exn ("AttributeError: " ++ entity), [])
  | some a => (read a, [a])

/-- Every probe outcome on `es` is a success or a permission-denied
`HTTPError`. -/
def permOnly (probe : String → ProbeOutcome) (es : List String) : Bool :=
  es.all fun e =>
    match probe e with
    | ProbeOutcome.ok => true
    | ProbeOutcome.httpError m => strIn PERMISSION_MESSAGE m
    | ProbeOutcome.exn _ => false

/-- No probe outcome on `es` is a non-`HTTPError` exception. -/
def noExn (probe : String → ProbeOutcome) (es : List String) : Bool :=
  es.all fun e =>
    match probe e with
    | ProbeOutcome.exn _ => false
    | _ => true

theorem gae_perm_filter (probe : String → ProbeOutcome) (es : List String)
    (h : permOnly probe es = true) :
    get_accessible_endpoints probe es =
      (Except.ok (es.filter fun e => decide (probe e = ProbeOutcome.ok)), es) := by
  induction es with
  | nil => rfl
  | cons e rest ih =>
    have he := (List.all_eq_true.1 h) e (List.mem_cons_self e rest)
    have hrest : permOnly probe rest = true := by
      refine List.all_eq_true.2 ?_
      intro x hx
      exact (List.all_eq_true.1 h) x (List.mem_cons_of_mem e hx)
    cases hpe : probe e with
    | ok =>
      simp only [get_accessible_endpoints, hpe, ih hrest, List.filter_cons, Except.map]
      simp [hpe]
    | httpError m =>
      have he2 : strIn PERMISSION_MESSAGE m = true := by
        rw [hpe] at he
        simpa using he
      simp only [get_accessible_endpoints, hpe, he2, if_true, ih hrest, List.filter_cons]
      simp [hpe]
    | exn m =>
      rw [hpe] at he
      simp at he

theorem gae_aborts (probe : String → ProbeOutcome) (pre post : List String)
    (E : String) (m : String)
    (hpre : permOnly probe pre = true)
    (hE : probe E = ProbeOutcome.httpError m)
    (hm : strIn PERMISSION_MESSAGE m = false) :
    get_accessible_endpoints probe (pre ++ E :: post) =
      (Except.error (PyRaise.http m), pre ++ [E]) := by
  induction pre with
  | nil =>
    simp only [List.nil_append, get_accessible_endpoints, hE, hm, Bool.false_eq_true, if_false]
  | cons e rest ih =>
    have he := (List.all_eq_true.1 hpre) e (List.mem_cons_self e rest)
    have hrest : permOnly probe rest = true := by
      refine List.all_eq_true.2 ?_
      intro x hx
      exact (List.all_eq_true.1 hpre) x (List.mem_cons_of_mem e hx)
    cases hpe : probe e with
    | ok =>
      simp only [List.cons_append, get_accessible_endpoints, hpe, List.append_eq,
        ih hrest, Except.map, List.cons_append]
    | httpError m2 =>
      have he2 : strIn PERMISSION_MESSAGE m2 = true := by
        rw [hpe] at he
        simpa using he
      simp only [List.cons_append, get_accessible_endpoints, hpe, he2, if_true,
        List.append_eq, ih hrest]
    | exn m2 =>
      rw [hpe] at he
      simp at he

theorem gae_no_exn_shape (probe : String → ProbeOutcome) (es : List String)
    (h : noExn probe es = true) :
    (∃ l, (get_accessible_endpoints probe es).1 = Except.ok l)
      ∨ ∃ m, (get_accessible_endpoints probe es).1 = Except.error (PyRaise.http m) := by
  induction es with
  | nil => exact Or.inl ⟨[], rfl⟩
  | cons e rest ih =>
    have he := (List.all_eq_true.1 h) e (List.mem_cons_self e rest)
    have hrest : noExn probe rest = true := by
      refine List.all_eq_true.2 ?_
      intro x hx
      exact (List.all_eq_true.1 h) x (List.mem_cons_of_mem e hx)
    cases hpe : probe e with
    | ok =>
      rcases ih hrest with ⟨l, hl⟩ | ⟨m, hm2⟩
      · exact Or.inl ⟨e :: l, by simp [get_accessible_endpoints, hpe, hl, Except.map]⟩
      · exact Or.inr ⟨m, by simp [get_accessible_endpoints, hpe, hm2, Except.map]⟩
    | httpError m2 =>
      by_cases hperm : strIn PERMISSION_MESSAGE m2 = true
      · rcases ih hrest with ⟨l, hl⟩ | ⟨m, hm2⟩
        · exact Or.inl ⟨l, by simp [get_accessible_endpoints, hpe, hperm, hl]⟩
        · exact Or.inr ⟨m, by simp [get_accessible_endpoints, hpe, hperm, hm2]⟩
      · refine Or.inr ⟨m2, ?_⟩
        simp only [get_accessible_endpoints, hpe]
        rw [if_neg hperm]
    | exn m2 =>
      rw [hpe] at he
      simp at he

/-- Full run of `Client.list` for a simple (dot-free) entity name. -/
theorem list_simple_run (c : Client) (name : String) (a : Accessor) (kwargs : Params)
    (hname : splitName name = [name])
    (hkw : pcontains kwargs "nested_names" = false)
    (hattr : c.attr name = some a) :
    Client.list c name kwargs =
      (Except.ok a.pages.flatten,
       Ev.get (pset kwargs "per_page" (PVal.nat DEFAULT_ITEMS_PER_PAGE))
         :: List.replicate (a.pages.length - 1) Ev.getNext) := by
  have hkw1 : pcontains (pset kwargs "per_page" (PVal.nat DEFAULT_ITEMS_PER_PAGE))
      "nested_names" = false := by
    rw [pcontains_pset_ne kwargs "per_page" "nested_names" _ (by decide)]
    exact hkw
  simp only [Client.list, hname, List.headD_cons, List.drop_succ_cons, List.drop_zero,
    List.isEmpty_nil, if_true, hattr]
  exact paginator_no_nested a _ hkw1

/-- Full run of `Client.list` for a two-segment compound name whose first
parent page's child accessors all resolve. -/
theorem list_two_level_run (c : Client) (name root rel : String) (a : Accessor)
    (ca : Record → Accessor) (kwargs : Params)
    (hname : splitName name = [root, rel])
    (hattr : c.attr root = some a)
    (hrel : ∀ r ∈ firstPage a, getRelated a rel r.id = some (ca r)) :
    Client.list c name kwargs =
      (Except.ok (((firstPage a).map fun r => (ca r).pages.flatten).flatten
          ++ (restPages a).flatten),
       Ev.get (pset (pset kwargs "per_page" (PVal.nat DEFAULT_ITEMS_PER_PAGE))
           "nested_names" (PVal.names [rel])) ::
         ((((firstPage a).map fun r =>
             Ev.get [] :: List.replicate ((ca r).pages.length - 1) Ev.getNext).flatten)
           ++ List.replicate (restPages a).length Ev.getNext)) := by
  simp only [Client.list, hname, List.headD_cons, List.drop_succ_cons, List.drop_zero,
    List.isEmpty_cons, Bool.false_eq_true, if_false, hattr]
  exact paginator_nested_one a _ rel ca (pget_pset_self _ _ _) hrel

/-- Full run of `Client.list` for a compound name with two or more relation
segments: the `KeyError` raised right after the initial fetch. -/
theorem list_deep_chain_run (c : Client) (name root : String) (ns : List String)
    (a : Accessor) (kwargs : Params)
    (hname : splitName name = root :: ns)
    (hlen : 1 < ns.length)
    (hattr : c.attr root = some a) :
    Client.list c name kwargs =
      (Except.error "KeyError: nested_names",
       [Ev.get (pset (pset kwargs "per_page" (PVal.nat DEFAULT_ITEMS_PER_PAGE))
         "nested_names" (PVal.names ns))]) := by
  have hne : ns ≠ [] := by
    intro hns
    rw [hns] at hlen
    simp at hlen
  simp only [Client.list, hname, List.headD_cons, List.drop_succ_cons, List.drop_zero,
    hattr]
  rw [if_neg (by simp [List.isEmpty_iff, hne])]
  exact paginator_deep_keyerror a _ ns (pget_pset_self _ _ _) hlen

/-- C1: for every simple (dot-free) entity name, `list(name)` yields exactly
the concatenation of the records of every page, in page order and in-page
order — hence no record is duplicated — and it performs the initial `get`
plus exactly one `get_next` per remaining page: further pages are fetched
only while the accessor's `records_remaining` flag is true, and fetching
stops as soon as the flag turns false. -/
theorem list_simple_concat_and_stops (c : Client) (name : String) (a : Accessor)
    (kwargs : Params)
    (hname : splitName name = [name])
    (hkw : pcontains kwargs "nested_names" = false)
    (hattr : c.attr name = some a) :
    Client.list c name kwargs =
      (Except.ok a.pages.flatten,
       Ev.get (pset kwargs "per_page" (PVal.nat DEFAULT_ITEMS_PER_PAGE))
         :: List.replicate (a.pages.length - 1) Ev.getNext) :=
  list_simple_run c name a kwargs hname hkw hattr

def jobsRec1 : Record := ⟨1, "job"⟩

def jobsRec2 : Record := ⟨2, "job"⟩

def jobsRec3 : Record := ⟨3, "job"⟩

/-- A three-record, two-page simple collection. -/
def jobsAcc : Accessor := Accessor.mk [[jobsRec1, jobsRec2], [jobsRec3]] []

/-- A client exposing the single root resource `jobs`. -/
def clientSimple : Client := ⟨fun s => if s = "jobs" then some jobsAcc else none⟩

/-- Witness for `list_simple_concat_and_stops`: a two-page `jobs` collection
is flattened in page order with exactly one `get_next`. -/
theorem list_simple_concat_and_stops_witness :
    splitName "jobs" = ["jobs"]
    ∧ pcontains [] "nested_names" = false
    ∧ clientSimple.attr "jobs" = some jobsAcc
    ∧ Client.list clientSimple "jobs" [] =
        (Except.ok jobsAcc.pages.flatten,
         Ev.get (pset [] "per_page" (PVal.nat DEFAULT_ITEMS_PER_PAGE))
           :: List.replicate (jobsAcc.pages.length - 1) Ev.getNext) :=
  ⟨by decide, by decide, rfl,
   list_simple_concat_and_stops clientSimple "jobs" jobsAcc [] (by decide) (by decide) rfl⟩

def appRec1 : Record := ⟨1, "application"⟩

def appRec2 : Record := ⟨2, "application"⟩

def ivRec1 : Record := ⟨10, "interview"⟩

def ivRec2 : Record := ⟨20, "interview"⟩

/-- Child collection of interviews of the application with id 1. -/
def ivAcc1 : Accessor := Accessor.mk [[ivRec1]] []

/-- Child collection of interviews of the application with id 2. -/
def ivAcc2 : Accessor := Accessor.mk [[ivRec2]] []

/-- A two-page parent collection of applications, each application having one
interview. -/
def appAcc2 : Accessor :=
  Accessor.mk [[appRec1], [appRec2]]
    [("interviews", [(1, ivAcc1), (2, ivAcc2)])]

/-- The interview child accessor of an application record. -/
def ca2 : Record → Accessor := fun r => if r.id = 1 then ivAcc1 else ivAcc2

/-- A client exposing the root resource `applications` of `appAcc2`. -/
def client2 : Client := ⟨fun s => if s = "applications" then some appAcc2 else none⟩

theorem client2_rel : ∀ r ∈ firstPage appAcc2, getRelated appAcc2 "interviews" r.id = some (ca2 r) := by
  intro r hr
  have : r = appRec1 := by
    simpa [firstPage, appAcc2, Accessor.pages] using hr
  subst this
  rfl

/-- C2: evaluating `list("applications.interviews")` on a two-page parent
batch of applications, each with one interview: the run emits the first
page's interview but then emits the second parent page's application record
verbatim — the later parent pages are not recursed over the way the first
page is, so a parent-level record is emitted, contradicting the claim that
every emitted record is a leaf-level record of the final relation. -/
theorem list_compound_second_page_parent_leak :
    (Client.list client2 "applications.interviews" []).1 = Except.ok [ivRec1, appRec2]
    ∧ appRec2.tag = "application" ∧ ivRec2.tag = "interview" := by
  refine ⟨?_, rfl, rfl⟩
  rw [list_two_level_run client2 "applications.interviews" "applications" "interviews"
    appAcc2 ca2 [] (by decide) rfl client2_rel]
  rfl

def xRec : Record := ⟨1, "x"⟩

/-- A one-page root collection for the deep-chain run. -/
def aAcc3 : Accessor := Accessor.mk [[xRec]] []

/-- A client exposing the root resource `a` of `aAcc3`. -/
def client3 : Client := ⟨fun s => if s = "a" then some aAcc3 else none⟩

/-- C3: evaluating `list` on a chain with two relation segments
(`"a.b.c"`): the run raises `KeyError` right after the initial fetch —
`params["nested_names"]` is read after `pop` removed the key — instead of
flattening the parent, child and grandchild records. -/
theorem list_deep_chain_keyerror :
    Client.list client3 "a.b.c" [] =
      (Except.error "KeyError: nested_names",
       [Ev.get (pset (pset [] "per_page" (PVal.nat DEFAULT_ITEMS_PER_PAGE))
         "nested_names" (PVal.names ["b", "c"]))]) := by
  exact list_deep_chain_run client3 "a.b.c" "a" ["b", "c"] aAcc3 [] (by decide) (by decide) rfl

theorem flatten_const_length (parents : List Record) (f : Record → List Record) (K : Nat)
    (h : ∀ r ∈ parents, (f r).length = K) :
    ((parents.map f).flatten).length = parents.length * K := by
  induction parents with
  | nil => simp
  | cons p rest ih =>
    simp only [List.map_cons, List.flatten_cons, List.length_append,
      h p (List.mem_cons_self p rest), ih (fun r hr => h r (List.mem_cons_of_mem p hr)),
      List.length_cons]
    ring

/-- C4: for a two-level compound entity name whose root collection is a
single parent batch of size M in which every parent record has exactly K
child records, `list` yields exactly the children of each parent in parent
order — parent-major order — and hence exactly M × K leaf records. -/
theorem list_two_level_parent_major (c : Client) (name root rel : String) (a : Accessor)
    (ca : Record → Accessor) (kwargs : Params) (parents : List Record) (K : Nat)
    (hname : splitName name = [root, rel])
    (hattr : c.attr root = some a)
    (hpages : a.pages = [parents])
    (hrel : ∀ r ∈ parents, getRelated a rel r.id = some (ca r))
    (hK : ∀ r ∈ parents, ((ca r).pages.flatten).length = K) :
    (Client.list c name kwargs).1 =
      Except.ok ((parents.map fun r => (ca r).pages.flatten).flatten)
    ∧ ((parents.map fun r => (ca r).pages.flatten).flatten).length
        = parents.length * K := by
  have hfirst : firstPage a = parents := by simp [firstPage, hpages]
  have hrest : restPages a = [] := by simp [restPages, hpages]
  constructor
  · rw [list_two_level_run c name root rel a ca kwargs hname hattr
      (by rw [hfirst]; exact hrel)]
    simp [hfirst, hrest]
  · exact flatten_const_length parents _ K hK

def daRec1 : Record := ⟨100, "demographics_answer"⟩

def daRec2 : Record := ⟨200, "demographics_answer"⟩

def daRec3 : Record := ⟨300, "demographics_answer"⟩

def daRec4 : Record := ⟨400, "demographics_answer"⟩

/-- Child answers of the application with id 1. -/
def daAcc1 : Accessor := Accessor.mk [[daRec1, daRec2]] []

/-- Child answers of the application with id 2. -/
def daAcc2 : Accessor := Accessor.mk [[daRec3, daRec4]] []

/-- A single-batch parent collection of two applications, each with two
demographics answers. -/
def appAcc4 : Accessor :=
  Accessor.mk [[appRec1, appRec2]]
    [("demographics_answers", [(1, daAcc1), (2, daAcc2)])]

/-- The demographics-answers child accessor of an application record. -/
def ca4 : Record → Accessor := fun r => if r.id = 1 then daAcc1 else daAcc2

/-- A client exposing the root resource `applications` of `appAcc4`. -/
def client4 : Client := ⟨fun s => if s = "applications" then some appAcc4 else none⟩

/-- Witness for `list_two_level_parent_major`: M = 2 parents with K = 2
children each yield the 4 leaves in parent-major order. -/
theorem list_two_level_parent_major_witness :
    splitName "applications.demographics_answers" = ["applications", "demographics_answers"]
    ∧ client4.attr "applications" = some appAcc4
    ∧ appAcc4.pages = [[appRec1, appRec2]]
    ∧ (Client.list client4 "applications.demographics_answers" []).1 =
        Except.ok (([appRec1, appRec2].map fun r => (ca4 r).pages.flatten).flatten)
    ∧ (([appRec1, appRec2].map fun r => (ca4 r).pages.flatten).flatten).length
        = [appRec1, appRec2].length * 2 :=
  ⟨by decide, rfl, rfl,
   (list_two_level_parent_major client4 "applications.demographics_answers" "applications"
      "demographics_answers" appAcc4 ca4 [] [appRec1, appRec2] 2 (by decide) rfl rfl
      (by intro r hr
          rcases List.mem_pair.1 hr with h1 | h1 <;> (subst h1; rfl))
      (by intro r hr
          rcases List.mem_pair.1 hr with h1 | h1 <;> (subst h1; rfl))).1,
   (list_two_level_parent_major client4 "applications.demographics_answers" "applications"
      "demographics_answers" appAcc4 ca4 [] [appRec1, appRec2] 2 (by decide) rfl rfl
      (by intro r hr
          rcases List.mem_pair.1 hr with h1 | h1 <;> (subst h1; rfl))
      (by intro r hr
          rcases List.mem_pair.1 hr with h1 | h1 <;> (subst h1; rfl))).2⟩

/-- The property claimed for C8: every initial page request in a trace
carries `per_page = DEFAULT_ITEMS_PER_PAGE`. -/
def pageRequestsUse100 (tr : List Ev) : Bool :=
  tr.all fun ev =>
    match ev with
    | Ev.get ps => decide (pget ps "per_page" = some (PVal.nat DEFAULT_ITEMS_PER_PAGE))
    | Ev.getNext => true

/-- C8 counterexample: in the run over `applications.interviews`, the
nested-level fetch of the first application's interviews is issued with no
parameters at all — in particular without `per_page` — so not every page
request issued by the engine uses a page size of 100. -/
theorem nested_get_without_per_page :
    pageRequestsUse100 (Client.list client2 "applications.interviews" []).2 = false := by
  rw [list_two_level_run client2 "applications.interviews" "applications" "interviews"
    appAcc2 ca2 [] (by decide) rfl client2_rel]
  rfl

/-- C8 amended: the root-level initial request always carries
`per_page = 100`, and the caller's keyword arguments cannot change that (a
caller-supplied `per_page` is overwritten); every other initial request the
engine issues — the nested-level fetches — carries no parameters at all, in
particular no `per_page`. -/
theorem per_page_root_fixed_nested_absent (c : Client) (name root : String)
    (parts : List String) (a : Accessor) (kwargs : Params)
    (hname : splitName name = root :: parts)
    (hattr : c.attr root = some a) :
    ∃ ps, (Client.list c name kwargs).2.head? = some (Ev.get ps)
      ∧ pget ps "per_page" = some (PVal.nat DEFAULT_ITEMS_PER_PAGE)
      ∧ ∀ p, Ev.get p ∈ (Client.list c name kwargs).2 → p = ps ∨ p = [] := by
  cases parts with
  | nil =>
    refine ⟨pset kwargs "per_page" (PVal.nat DEFAULT_ITEMS_PER_PAGE), ?_,
      pget_pset_self _ _ _, ?_⟩
    · simp only [Client.list, hname, List.headD_cons, List.drop_succ_cons, List.drop_zero,
        List.isEmpty_nil, if_true, hattr]
      exact paginator_trace_head a _
    · intro p hp
      simp only [Client.list, hname, List.headD_cons, List.drop_succ_cons, List.drop_zero,
        List.isEmpty_nil, if_true, hattr] at hp
      exact paginator_gets a _ p hp
  | cons q qs =>
    refine ⟨pset (pset kwargs "per_page" (PVal.nat DEFAULT_ITEMS_PER_PAGE))
        "nested_names" (PVal.names (q :: qs)), ?_, ?_, ?_⟩
    · simp only [Client.list, hname, List.headD_cons, List.drop_succ_cons, List.drop_zero,
        List.isEmpty_cons, Bool.false_eq_true, if_false, hattr]
      exact paginator_trace_head a _
    · rw [pget_pset_ne _ _ _ _ (by decide)]
      exact pget_pset_self _ _ _
    · intro p hp
      simp only [Client.list, hname, List.headD_cons, List.drop_succ_cons, List.drop_zero,
        List.isEmpty_cons, Bool.false_eq_true, if_false, hattr] at hp
      exact paginator_gets a _ p hp

/-- Witness for `per_page_root_fixed_nested_absent`: even a caller-supplied
`per_page` of 5 is overwritten with 100 on the root request. -/
theorem per_page_root_fixed_nested_absent_witness :
    splitName "jobs" = ["jobs"]
    ∧ clientSimple.attr "jobs" = some jobsAcc
    ∧ ∃ ps, (Client.list clientSimple "jobs" [("per_page", PVal.nat 5)]).2.head?
          = some (Ev.get ps)
        ∧ pget ps "per_page" = some (PVal.nat DEFAULT_ITEMS_PER_PAGE)
        ∧ ∀ p, Ev.get p ∈ (Client.list clientSimple "jobs" [("per_page", PVal.nat 5)]).2 →
            p = ps ∨ p = [] :=
  ⟨by decide, rfl,
   per_page_root_fixed_nested_absent clientSimple "jobs" "jobs" [] jobsAcc
     [("per_page", PVal.nat 5)] (by decide) rfl⟩

/-- C10: for every compound (dotted) entity name, the initial fetch issued to
the root resource accessor carries the internal `nested_names` list in its
request parameters — the key is removed from the mapping only after the first
`get` — alongside `per_page = 100`; every caller-supplied filter is forwarded
unchanged. -/
theorem list_compound_first_get_params (c : Client) (name root : String) (ns : List String)
    (a : Accessor) (kwargs : Params)
    (hname : splitName name = root :: ns)
    (hns : ns ≠ [])
    (hattr : c.attr root = some a) :
    (Client.list c name kwargs).2.head? =
      some (Ev.get (pset (pset kwargs "per_page" (PVal.nat DEFAULT_ITEMS_PER_PAGE))
        "nested_names" (PVal.names ns)))
    ∧ pget (pset (pset kwargs "per_page" (PVal.nat DEFAULT_ITEMS_PER_PAGE))
        "nested_names" (PVal.names ns)) "nested_names" = some (PVal.names ns)
    ∧ pget (pset (pset kwargs "per_page" (PVal.nat DEFAULT_ITEMS_PER_PAGE))
        "nested_names" (PVal.names ns)) "per_page" = some (PVal.nat DEFAULT_ITEMS_PER_PAGE)
    ∧ ∀ k, k ≠ "per_page" → k ≠ "nested_names" →
        pget (pset (pset kwargs "per_page" (PVal.nat DEFAULT_ITEMS_PER_PAGE))
          "nested_names" (PVal.names ns)) k = pget kwargs k := by
  refine ⟨?_, pget_pset_self _ _ _, ?_, ?_⟩
  · cases ns with
    | nil => exact absurd rfl hns
    | cons q qs =>
      simp only [Client.list, hname, List.headD_cons, List.drop_succ_cons, List.drop_zero,
        List.isEmpty_cons, Bool.false_eq_true, if_false, hattr]
      exact paginator_trace_head a _
  · rw [pget_pset_ne _ _ _ _ (by decide)]
    exact pget_pset_self _ _ _
  · intro k hk1 hk2
    rw [pget_pset_ne _ _ _ _ hk2, pget_pset_ne _ _ _ _ hk1]

/-- Witness for `list_compound_first_get_params`: a caller filter
`created_after` rides along with `per_page` and `nested_names` on the first
fetch of `applications.interviews`. -/
theorem list_compound_first_get_params_witness :
    splitName "applications.interviews" = ["applications", "interviews"]
    ∧ (["interviews"] : List String) ≠ []
    ∧ client2.attr "applications" = some appAcc2
    ∧ ((Client.list client2 "applications.interviews"
          [("created_after", PVal.str "2020-01-01")]).2.head? =
        some (Ev.get (pset (pset [("created_after", PVal.str "2020-01-01")]
          "per_page" (PVal.nat DEFAULT_ITEMS_PER_PAGE))
          "nested_names" (PVal.names ["interviews"])))
      ∧ pget (pset (pset [("created_after", PVal.str "2020-01-01")]
          "per_page" (PVal.nat DEFAULT_ITEMS_PER_PAGE))
          "nested_names" (PVal.names ["interviews"])) "nested_names"
          = some (PVal.names ["interviews"])
      ∧ pget (pset (pset [("created_after", PVal.str "2020-01-01")]
          "per_page" (PVal.nat DEFAULT_ITEMS_PER_PAGE))
          "nested_names" (PVal.names ["interviews"])) "per_page"
          = some (PVal.nat DEFAULT_ITEMS_PER_PAGE)
      ∧ ∀ k, k ≠ "per_page" → k ≠ "nested_names" →
          pget (pset (pset [("created_after", PVal.str "2020-01-01")]
            "per_page" (PVal.nat DEFAULT_ITEMS_PER_PAGE))
            "nested_names" (PVal.names ["interviews"])) k
            = pget [("created_after", PVal.str "2020-01-01")] k) :=
  ⟨by decide, by decide, rfl,
   list_compound_first_get_params client2 "applications.interviews" "applications"
     ["interviews"] appAcc2 [("created_after", PVal.str "2020-01-01")]
     (by decide) (by decide) rfl⟩

/-- C5: for every probe whose failures on the catalog are exactly
permission-denied `HTTPError`s (success on all the rest),
`get_accessible_endpoints` probes every catalog entity in catalog order and
returns exactly the catalog list restricted to the entities whose probe
succeeded, in catalog order. -/
theorem get_accessible_endpoints_filters_permission_denied
    (probe : String → ProbeOutcome)
    (h : permOnly probe ENTITIES = true) :
    get_accessible_endpoints probe ENTITIES =
      (Except.ok (ENTITIES.filter fun e => decide (probe e = ProbeOutcome.ok)), ENTITIES) :=
  gae_perm_filter probe ENTITIES h

/-- A probe denying exactly `candidates` and `jobs.openings` with the
permission message, succeeding on everything else. -/
def probeDenyTwo : String → ProbeOutcome := fun e =>
  if e = "candidates" ∨ e = "jobs.openings" then
    ProbeOutcome.httpError ("403 Forbidden: " ++ PERMISSION_MESSAGE)
  else ProbeOutcome.ok

/-- Witness for `get_accessible_endpoints_filters_permission_denied`: denying
exactly two known entities returns the catalog minus those two, in order. -/
theorem get_accessible_endpoints_filters_permission_denied_witness :
    permOnly probeDenyTwo ENTITIES = true
    ∧ get_accessible_endpoints probeDenyTwo ENTITIES =
        (Except.ok (ENTITIES.filter fun e => decide (probeDenyTwo e = ProbeOutcome.ok)),
         ENTITIES) :=
  ⟨by decide,
   get_accessible_endpoints_filters_permission_denied probeDenyTwo (by decide)⟩

/-- C7: a probe raising an `HTTPError` whose message lacks the recognized
permission pattern on entity `E` makes `get_accessible_endpoints` re-raise it
immediately: exactly the entities up to and including `E` are probed, none
after `E` in catalog order. -/
theorem get_accessible_endpoints_aborts_after_fatal (probe : String → ProbeOutcome)
    (pre post : List String) (E m : String)
    (hsplit : ENTITIES = pre ++ E :: post)
    (hpre : permOnly probe pre = true)
    (hE : probe E = ProbeOutcome.httpError m)
    (hm : strIn PERMISSION_MESSAGE m = false) :
    get_accessible_endpoints probe ENTITIES =
      (Except.error (PyRaise.http m), pre ++ [E]) := by
  rw [hsplit]
  exact gae_aborts probe pre post E m hpre hE hm

/-- A probe whose read of `candidates` fails with a server error. -/
def probeFatal : String → ProbeOutcome := fun e =>
  if e = "candidates" then ProbeOutcome.httpError "500 Server Error" else ProbeOutcome.ok

/-- Witness for `get_accessible_endpoints_aborts_after_fatal`: a server error
on `candidates`, the second catalog entity, stops the loop right there. -/
theorem get_accessible_endpoints_aborts_after_fatal_witness :
    ENTITIES = ["applications"] ++ "candidates" ::
        ["close_reasons", "degrees", "departments", "job_posts", "jobs", "offers",
         "scorecards", "users", "custom_fields", "demographics_question_sets",
         "demographics_questions", "demographics_answer_options", "demographics_answers",
         "applications.demographics_answers", "demographics_question_sets.questions",
         "demographics_answers.answer_options", "interviews", "applications.interviews",
         "sources", "rejection_reasons", "jobs.openings", "job_stages", "jobs.stages"]
    ∧ permOnly probeFatal ["applications"] = true
    ∧ probeFatal "candidates" = ProbeOutcome.httpError "500 Server Error"
    ∧ strIn PERMISSION_MESSAGE "500 Server Error" = false
    ∧ get_accessible_endpoints probeFatal ENTITIES =
        (Except.error (PyRaise.http "500 Server Error"),
         ["applications"] ++ ["candidates"]) :=
  ⟨by decide, by decide, by decide, by decide,
   get_accessible_endpoints_aborts_after_fatal probeFatal ["applications"]
     ["close_reasons", "degrees", "departments", "job_posts", "jobs", "offers",
      "scorecards", "users", "custom_fields", "demographics_question_sets",
      "demographics_questions", "demographics_answer_options", "demographics_answers",
      "applications.demographics_answers", "demographics_question_sets.questions",
      "demographics_answers.answer_options", "interviews", "applications.interviews",
      "sources", "rejection_reasons", "jobs.openings", "job_stages", "jobs.stages"]
     "candidates" "500 Server Error" (by decide) (by decide) (by decide) (by decide)⟩

/-- C6 counterexample: a probe raising a non-`HTTPError` exception makes
`health_check` itself raise — only `HTTPError` is caught — so `health_check`
does not turn every fatal probe error into a boolean-plus-message result. -/
theorem health_check_raises_on_non_http :
    health_check (fun _ => ProbeOutcome.exn "AttributeError: boom") ENTITIES
      = Except.error (PyRaise.other "AttributeError: boom") := by
  rfl

/-- C6 amended: provided every probe failure on the catalog is an
`HTTPError`, `health_check` never raises: it returns `(False, fixed
grant-permissions message)` when the accessible-endpoints list is empty,
`(True, None)` when it is non-empty, and `(False, the error's message)` when
a fatal `HTTPError` occurs; a non-`HTTPError` probe exception would still
propagate. -/
theorem health_check_http_only (probe : String → ProbeOutcome)
    (h : noExn probe ENTITIES = true) :
    (∃ r, health_check probe ENTITIES = Except.ok r)
    ∧ (∀ l, (get_accessible_endpoints probe ENTITIES).1 = Except.ok l →
        health_check probe ENTITIES =
          Except.ok (if l.isEmpty then (false, some NO_PERMISSION_MESSAGE) else (true, none)))
    ∧ (∀ m, (get_accessible_endpoints probe ENTITIES).1 = Except.error (PyRaise.http m) →
        health_check probe ENTITIES = Except.ok (false, some m)) := by
  refine ⟨?_, ?_, ?_⟩
  · rcases gae_no_exn_shape probe ENTITIES h with ⟨l, hl⟩ | ⟨m, hm⟩
    · unfold health_check
      rw [hl]
      by_cases he : l.isEmpty <;> simp [he]
    · unfold health_check
      rw [hm]
      exact ⟨_, rfl⟩
  · intro l hl
    unfold health_check
    rw [hl]
    by_cases he : l.isEmpty <;> simp [he]
  · intro m hm
    unfold health_check
    rw [hm]

/-- Witness for `health_check_http_only`: with every probe succeeding, the
health check reports `(True, None)`. -/
theorem health_check_http_only_witness :
    noExn (fun _ => ProbeOutcome.ok) ENTITIES = true
    ∧ ((∃ r, health_check (fun _ => ProbeOutcome.ok) ENTITIES = Except.ok r)
      ∧ (∀ l, (get_accessible_endpoints (fun _ => ProbeOutcome.ok) ENTITIES).1 = Except.ok l →
          health_check (fun _ => ProbeOutcome.ok) ENTITIES =
            Except.ok (if l.isEmpty then (false, some NO_PERMISSION_MESSAGE) else (true, none)))
      ∧ (∀ m, (get_accessible_endpoints (fun _ => ProbeOutcome.ok) ENTITIES).1
            = Except.error (PyRaise.http m) →
          health_check (fun _ => ProbeOutcome.ok) ENTITIES = Except.ok (false, some m))) :=
  ⟨by decide, health_check_http_only (fun _ => ProbeOutcome.ok) (by decide)⟩

/-- A one-page collection of applications for the probe world. -/
def appAcc9 : Accessor := Accessor.mk [[appRec1]] []

/-- A one-page collection of interviews for the probe world. -/
def ivAcc9 : Accessor := Accessor.mk [[ivRec1]] []

/-- Modelled from the spec: a client whose attributes are exactly the simple
root resource names (`applications`, `interviews`); per spec section 4.1 a
compound name must be split before lookup, so the dotted string itself is not
an attribute. -/
def client9 : Client :=
  ⟨fun s =>
    if s = "applications" then some appAcc9
    else if s = "interviews" then some ivAcc9
    else none⟩

/-- C9: evaluating the probe read of `get_accessible_endpoints` at the dotted
catalog entity `applications.interviews`: the probe looks up the attribute
named by the full dotted string — not the root segment — so it hits a
resolution fault and issues no read at all, even though the root segment's
accessor exists on the client. -/
theorem probe_dotted_entity_resolution_fault :
    probeStep client9 (fun _ => ProbeOutcome.ok) "applications.interviews"
      = (ProbeOutcome.exn "AttributeError: applications.interviews", [])
    ∧ client9.attr ((splitName "applications.interviews").headD "") = some appAcc9
    ∧ probeStep client9 (fun _ => ProbeOutcome.ok)
        ((splitName "applications.interviews").headD "")
      = (ProbeOutcome.ok, [appAcc9]) :=
  ⟨rfl, rfl, rfl⟩
